import Mathlib

/-!
Verification development for the coding-assistant repository.

The definitions below are a shallow embedding of the Rust sources:

* canonical message model (`Role`, `Message`) — the `models` module is not in
  the provided source tree, so it is modelled from the spec;
* provider catalog (`src/clients/providers.rs`);
* chat completion client (`src/clients/chat_completion.rs`): request-body
  construction, the state transition of `send_message` with the network
  exchange abstracted as an oracle (`NetOutcome`), and `get_message_history`;
* fill-in-middle completion (`src/operations/complete.rs`);
* the LSP backend state and code-action machinery (`src/lsp/backend.rs`).

Machine integers (`u32`/`usize` line numbers, token counts) are modelled as
`Nat` (no arithmetic in the embedded code can overflow their ranges in the
modelled scenarios); `f32` generation parameters are modelled as `Rat`
(their values are only stored and serialized, never computed with).
-/

/-- Modelled from the spec: the canonical message role (`Role` in the
repository's `models` module, which is not in the provided source tree).
Spec section 3: tagged variant System, User, Assistant. -/
inductive Role where
  | System
  | User
  | Assistant
deriving DecidableEq, Repr

/-- Modelled from the spec: the canonical message (`Message` in the
repository's `models` module, which is not in the provided source tree).
Spec section 3: a role together with text content. -/
structure Message where
  role : Role
  content : String
deriving DecidableEq, Repr

/-- `Provider` from `src/clients/providers.rs`. -/
inductive Provider where
  | Anthropic
  | OpenAI
  | Mistral
  | Google
deriving DecidableEq, Repr

/-- `Model` from `src/clients/providers.rs`. -/
inductive Model where
  | GPT4o
  | GPT4Turbo
  | GPT3Turbo
  | Claude3_5Sonnet
  | Claude3Opus
  | Claude3Sonnet
  | Claude3Haiku
  | Codestral
  | GeminiFlash
  | GeminiPro
deriving DecidableEq, Repr

/-- The serde `rename` wire identifiers on `Model`
(`src/clients/providers.rs`, serde attributes). -/
def Model.wireName : Model → String
  | .GPT4o => "gpt-4o"
  | .GPT4Turbo => "gpt-4-turbo-preview"
  | .GPT3Turbo => "gpt-3-turbo"
  | .Claude3_5Sonnet => "claude-3-5-sonnet-20240620"
  | .Claude3Opus => "claude-3-opus-20240229"
  | .Claude3Sonnet => "claude-3-sonnet-20240229"
  | .Claude3Haiku => "claude-3-haiku-20240307"
  | .Codestral => "codestral-latest"
  | .GeminiFlash => "gemini-1.5-flash-latest"
  | .GeminiPro => "gemini-1.5-pro-latest"

/-- `impl fmt::Display for Model` from `src/clients/providers.rs`
(lines 36-51): the human display identifier, distinct from the wire name. -/
def Model.display : Model → String
  | .GPT4o => "GPT-4o"
  | .GPT4Turbo => "GPT-4-Turbo"
  | .GPT3Turbo => "GPT-3-Turbo"
  | .Claude3Opus => "Claude 3 Opus"
  | .Claude3Sonnet => "Claude 3 Sonnet"
  | .Claude3Haiku => "Claude 3 Haiku"
  | .Codestral => "Codestral"
  | .Claude3_5Sonnet => "Claude 3.5 Sonnet"
  | .GeminiFlash => "Gemini 1.5 Flash"
  | .GeminiPro => "Gemini 1.5 Pro"

/-- A model of `serde_json::Value`.  Objects are association lists in the
textual order of the source (serde's map ordering is irrelevant to the
claims, which are about field presence and values). -/
inductive Json where
  | null
  | bool (b : Bool)
  | num (q : Rat)
  | str (s : String)
  | arr (elems : List Json)
  | obj (fields : List (String × Json))
deriving Repr

/-- Whether a JSON value is an object with a field of the given key. -/
def Json.hasField : Json → String → Bool
  | .obj fields, key => fields.any (fun f => f.1 == key)
  | _, _ => false

mutual

/-- A model of `serde_json::to_string_pretty` applied to a `Value`
(chat_completion.rs line 228).  The exact layout of serde's pretty printer
is abstracted to a deterministic serializer; the claims only use the fact
that the produced text is embedded verbatim in the error message. -/
def Json.to_string_pretty : Json → String
  | .null => "null"
  | .bool b => if b then "true" else "false"
  | .num q => toString q
  | .str s => "\"" ++ s ++ "\""
  | .arr elems => "[" ++ Json.prettyElems elems ++ "]"
  | .obj fields => "\x7b" ++ Json.prettyFields fields ++ "\x7d"

def Json.prettyElems : List Json → String
  | [] => ""
  | [x] => Json.to_string_pretty x
  | x :: xs => Json.to_string_pretty x ++ ", " ++ Json.prettyElems xs

def Json.prettyFields : List (String × Json) → String
  | [] => ""
  | [f] => "\"" ++ f.1 ++ "\": " ++ Json.to_string_pretty f.2
  | f :: fs => "\"" ++ f.1 ++ "\": " ++ Json.to_string_pretty f.2 ++ ", " ++ Json.prettyFields fs

end

/-- Modelled from the spec: serde serialization of a canonical `Message`
(the `models` module is not in the provided source tree).  A message
serializes as an object with its role tag and content. -/
def Message.toJson (m : Message) : Json :=
  .obj [("role", .str (match m.role with
          | .System => "system"
          | .User => "user"
          | .Assistant => "assistant")),
        ("content", .str m.content)]

/-- Serialization of `Model` (serde uses the rename attribute, so the wire
name is emitted — `src/clients/providers.rs`). -/
def Model.toJson (m : Model) : Json := .str m.wireName

/-- Serialization of an `Option` number field under `json!`. -/
def Json.optNum : Option Rat → Json
  | none => .null
  | some q => .num q

/-- Serialization of an `Option` natural-number field under `json!`. -/
def Json.optNat : Option Nat → Json
  | none => .null
  | some n => .num n

/-- Serialization of an `Option<String>` field under `json!`. -/
def Json.optStr : Option String → Json
  | none => .null
  | some s => .str s

/-- Serialization of `Option<Vec<String>>` (the `stop` field). -/
def Json.optStrList : Option (List String) → Json
  | none => .null
  | some xs => .arr (xs.map Json.str)

/-- Serialization of `Option<HashMap<String, f32>>` (the `logit_bias`
field); the hash map is modelled as an association list. -/
def Json.optNumMap : Option (List (String × Rat)) → Json
  | none => .null
  | some fields => .obj (fields.map (fun f => (f.1, Json.num f.2)))

/-- `ChatCompletionClient` from `src/clients/chat_completion.rs`
(lines 17-33). -/
structure ChatCompletionClient where
  provider : Provider
  model : Model
  token : String
  temperature : Option Rat
  top_p : Option Rat
  max_tokens : Option Nat
  system : String
  messages : List Message
  stop : Option (List String)
  presence_penalty : Option Rat
  frequency_penalty : Option Rat
  logit_bias : Option (List (String × Rat))
  user : Option String
  top_k : Option Nat
  stream : Bool
deriving Repr

/-- `ChatCompletionClient::new` (chat_completion.rs lines 36-70).  The
environment-variable credential lookup (which panics when absent) is
abstracted: the resolved token is passed as an argument. -/
def ChatCompletionClient.new (provider : Provider) (model : Model)
    (system_prompt : String) (token : String) : ChatCompletionClient :=
  { provider := provider
    model := model
    token := token
    temperature := some 0
    max_tokens := some 1028
    top_p := none
    system := system_prompt
    messages :=
      match provider with
      | .OpenAI | .Mistral => [{ role := Role.System, content := system_prompt }]
      | .Google | .Anthropic => []
    stop := none
    presence_penalty := none
    frequency_penalty := none
    logit_bias := none
    user := none
    top_k := none
    stream := false }

/-- Modelled from the spec: the role-renaming adapter used for Google
requests (`Instruction::from` in `src/clients/google.rs`, which is not in
the provided source tree).  Spec section 4.2: the `contents` array is built
by mapping every history message through a role-renaming adapter. -/
def googleContent (m : Message) : Json :=
  .obj [("role", .str (match m.role with
          | .User => "user"
          | .Assistant => "model"
          | .System => "system")),
        ("parts", .arr [.obj [("text", .str m.content)]])]

/-- The request body built by `send_message` (chat_completion.rs
lines 141-174), as a function of the client state at the moment the body is
built (i.e. after the outgoing message has been pushed onto the history).
Note the `Provider::Mistral` arm of the source builds the empty object. -/
def build_prompt (c : ChatCompletionClient) : Json :=
  match c.provider with
  | .Anthropic =>
      .obj [("model", c.model.toJson),
            ("temperature", Json.optNum c.temperature),
            ("max_tokens", Json.optNat c.max_tokens),
            ("top_p", Json.optNum c.top_p),
            ("top_k", Json.optNat c.top_k),
            ("stream", .bool c.stream),
            ("system", .str c.system),
            ("messages", .arr (c.messages.map Message.toJson))]
  | .OpenAI =>
      .obj [("model", c.model.toJson),
            ("temperature", Json.optNum c.temperature),
            ("top_p", Json.optNum c.top_p),
            ("max_tokens", Json.optNat c.max_tokens),
            ("stream", .bool c.stream),
            ("messages", .arr (c.messages.map Message.toJson)),
            ("presence_penalty", Json.optNum c.presence_penalty),
            ("frequency_penalty", Json.optNum c.frequency_penalty),
            ("stop", Json.optStrList c.stop),
            ("logit_bias", Json.optNumMap c.logit_bias),
            ("user", Json.optStr c.user)]
  | .Google =>
      .obj [("system_instruction", .obj [("parts", .obj [("text", .str c.system)])]),
            ("contents", .arr (c.messages.map googleContent))]
  | .Mistral => .obj []

/-- The request body that `send_message` sends for a given input message:
the message is first pushed onto the history (chat_completion.rs line 139),
then the body is built from the updated state (lines 141-174). -/
def ChatCompletionClient.request_body (c : ChatCompletionClient) (message : Message) : Json :=
  build_prompt { c with messages := c.messages ++ [message] }

/-- Oracle for the network exchange performed by `send_message`:
`transportErr` models a failure of `req.send()`; `success` models a 2xx
response together with the result of decoding its body through the
provider's response adapter (`Except.error` = decode failure, the adapter's
`Option<Message>` otherwise); `failure` models a non-2xx response together
with the result of parsing its body as generic JSON. -/
inductive NetOutcome where
  | transportErr (e : String)
  | success (decode : Except String (Option Message))
  | failure (body : Except String Json)

/-- `ChatCompletionClient::send_message` (chat_completion.rs lines 135-237)
as a state transition: returns the Rust function's result (errors carry the
formatted message of the boxed error) together with the updated client.
The outgoing message is pushed before the exchange (line 139); a decoded
reply is pushed after it (lines 221-223); the non-2xx branch formats the
model display name with the pretty-printed body (lines 227-235). -/
def ChatCompletionClient.send_message (c : ChatCompletionClient) (message : Message)
    (net : NetOutcome) : Except String (Option Message) × ChatCompletionClient :=
  let c' := { c with messages := c.messages ++ [message] }
  match net with
  | .transportErr e => (.error e, c')
  | .success (.error e) => (.error e, c')
  | .success (.ok none) => (.ok none, c')
  | .success (.ok (some msg)) =>
      (.ok (some msg), { c' with messages := c'.messages ++ [msg] })
  | .failure (.ok resp_json) =>
      (.error (c.model.display ++ "\n\n" ++ Json.to_string_pretty resp_json), c')
  | .failure (.error e) =>
      (.error ("Failed to parse response JSON: " ++ e), c')

/-- `ChatCompletionClient::get_message_history` (chat_completion.rs
lines 239-252). -/
def ChatCompletionClient.get_message_history (c : ChatCompletionClient) : List Message :=
  match c.provider with
  | .Anthropic | .Google =>
      { role := Role.System, content := c.system } :: c.messages
  | .OpenAI | .Mistral => c.messages

/-- A network outcome whose decoded reply (if any) has the Assistant role.
Spec section 4.3 (the response adapters are not in the provided source
tree): every adapter fixes the produced message's role to Assistant. -/
def NetOutcome.repliesAssistant : NetOutcome → Prop
  | .success (.ok (some m)) => m.role = Role.Assistant
  | _ => True

/-- Client states reachable by construction followed by any sequence of
`send_message` calls whose input messages are non-System (callers in the
repository only send User messages) and whose decoded replies are
Assistant messages (the adapter guarantee). -/
inductive Reachable : ChatCompletionClient → Prop where
  | init (p : Provider) (m : Model) (sys tok : String) :
      Reachable (ChatCompletionClient.new p m sys tok)
  | step (c : ChatCompletionClient) (msg : Message) (net : NetOutcome) :
      Reachable c → msg.role ≠ Role.System → net.repliesAssistant →
      Reachable (c.send_message msg net).2

/-- No message in the list carries the System role. -/
def noSystem (msgs : List Message) : Prop :=
  ∀ m ∈ msgs, m.role ≠ Role.System

/-- The per-provider shape of the stored history: no in-list system message
for Anthropic/Google; the system prompt as the first message (and no other
system message) for OpenAI/Mistral. -/
def HistInv (c : ChatCompletionClient) : Prop :=
  match c.provider with
  | .Anthropic | .Google => noSystem c.messages
  | .OpenAI | .Mistral =>
      ∃ rest, c.messages = { role := Role.System, content := c.system } :: rest
        ∧ noSystem rest

theorem send_message_provider_eq (c : ChatCompletionClient) (msg : Message)
    (net : NetOutcome) : (c.send_message msg net).2.provider = c.provider := by
  cases net with
  | transportErr e => rfl
  | success d => cases d with
    | error e => rfl
    | ok o => cases o <;> rfl
  | failure b => cases b <;> rfl

theorem send_message_system_eq (c : ChatCompletionClient) (msg : Message)
    (net : NetOutcome) : (c.send_message msg net).2.system = c.system := by
  cases net with
  | transportErr e => rfl
  | success d => cases d with
    | error e => rfl
    | ok o => cases o <;> rfl
  | failure b => cases b <;> rfl

/-- The messages of the post-state of `send_message`: the input message is
always appended; a decoded reply is additionally appended. -/
theorem send_message_messages_eq (c : ChatCompletionClient) (msg : Message)
    (net : NetOutcome) :
    (c.send_message msg net).2.messages = c.messages ++ [msg] ∨
    ∃ reply, net = .success (.ok (some reply)) ∧
      (c.send_message msg net).2.messages = c.messages ++ [msg] ++ [reply] := by
  cases net with
  | transportErr e => exact Or.inl rfl
  | success d => cases d with
    | error e => exact Or.inl rfl
    | ok o => cases o with
      | none => exact Or.inl rfl
      | some reply => exact Or.inr ⟨reply, rfl, rfl⟩
  | failure b => cases b <;> exact Or.inl rfl

theorem noSystem_append {l₁ l₂ : List Message} (h₁ : noSystem l₁)
    (h₂ : noSystem l₂) : noSystem (l₁ ++ l₂) := by
  intro m hm
  rcases List.mem_append.mp hm with h | h
  · exact h₁ m h
  · exact h₂ m h

/-- The history-shape invariant holds of every reachable client state. -/
theorem reachable_histInv (c : ChatCompletionClient) (h : Reachable c) :
    HistInv c := by
  induction h with
  | init p m sys tok =>
      cases p <;> simp only [HistInv, ChatCompletionClient.new, noSystem]
      · intro m hm; cases hm
      · exact ⟨[], rfl, fun m hm => absurd hm (List.not_mem_nil m)⟩
      · exact ⟨[], rfl, fun m hm => absurd hm (List.not_mem_nil m)⟩
      · intro m hm; cases hm
  | step c msg net hc hmsg hnet ih =>
      have hprov := send_message_provider_eq c msg net
      have hsys := send_message_system_eq c msg net
      have happmsg : noSystem [msg] := by
        intro m hm
        rcases List.mem_singleton.mp hm with rfl
        exact hmsg
      have happ : ∀ tail, noSystem tail →
          noSystem (c.send_message msg net).2.messages →
          True := fun _ _ _ => trivial
      have hmsgs := send_message_messages_eq c msg net
      have hreply : ∀ reply, net = NetOutcome.success (.ok (some reply)) →
          noSystem [reply] := by
        intro reply hr m hm
        rcases List.mem_singleton.mp hm with rfl
        subst hr
        simp only [NetOutcome.repliesAssistant] at hnet
        rw [hnet]
        intro hco
        cases hco
      unfold HistInv at ih ⊢
      rw [hprov, hsys]
      cases hp : c.provider with
      | Anthropic =>
          rw [hp] at ih
          rcases hmsgs with heq | ⟨reply, hr, heq⟩
          · rw [heq]; exact noSystem_append ih happmsg
          · rw [heq]
            exact noSystem_append (noSystem_append ih happmsg) (hreply reply hr)
      | Google =>
          rw [hp] at ih
          rcases hmsgs with heq | ⟨reply, hr, heq⟩
          · rw [heq]; exact noSystem_append ih happmsg
          · rw [heq]
            exact noSystem_append (noSystem_append ih happmsg) (hreply reply hr)
      | OpenAI =>
          rw [hp] at ih
          rcases ih with ⟨rest, hrest, hns⟩
          rcases hmsgs with heq | ⟨reply, hr, heq⟩
          · exact ⟨rest ++ [msg], by rw [heq, hrest]; simp,
              noSystem_append hns happmsg⟩
          · exact ⟨rest ++ [msg] ++ [reply], by rw [heq, hrest]; simp,
              noSystem_append (noSystem_append hns happmsg) (hreply reply hr)⟩
      | Mistral =>
          rw [hp] at ih
          rcases ih with ⟨rest, hrest, hns⟩
          rcases hmsgs with heq | ⟨reply, hr, heq⟩
          · exact ⟨rest ++ [msg], by rw [heq, hrest]; simp,
              noSystem_append hns happmsg⟩
          · exact ⟨rest ++ [msg] ++ [reply], by rw [heq, hrest]; simp,
              noSystem_append (noSystem_append hns happmsg) (hreply reply hr)⟩

/-- The fill-in-middle sentinel marker (`"<fim>"` in complete.rs line 55);
text is modelled at the character level (all marker characters are ASCII,
so Rust byte indices coincide with character indices). -/
def fim : List Char := "<fim>".toList

/-- A model of Rust `str::find` for a substring pattern: the least index at
which the pattern occurs, if any. -/
def rustFind (m : List Char) : List Char → Option Nat
  | [] => if m.isEmpty then some 0 else none
  | c :: rest =>
      if m.isPrefixOf (c :: rest) then some 0
      else (rustFind m rest).map (· + 1)

/-- The number of indices at which the pattern occurs in the text. -/
def occCount (m s : List Char) : Nat :=
  (List.range (s.length + 1)).countP (fun i => m.isPrefixOf (s.drop i))

/-- The prefix/suffix split performed by `Complete::send` (complete.rs
lines 55-61): `find("<fim>")` then `split_at`, with the suffix dropping the
marker's five characters. -/
def fimSplit (prompt : List Char) : List Char × Option (List Char) :=
  match rustFind fim prompt with
  | none => (prompt, none)
  | some index => (prompt.take index, some (prompt.drop (index + 5)))

/-- `Complete::send` (complete.rs lines 32-81) with the completion client's
network exchange abstracted as an oracle (`net` is the content of the
client reply: `Except.error` = transport or decode failure propagated by
the question-mark operator, `Option` = the adapter's reply).  The
model/provider resolution and the message-history persistence side effect
do not affect the returned value and are elided. -/
def Complete.send (context : Option (List Char))
    (net : Except String (Option (List Char))) :
    Except String (Option (List Char)) :=
  match context with
  | some prompt =>
      let split := fimSplit prompt
      match net with
      | .error e => .error e
      | .ok none => .ok none
      | .ok (some msgContent) =>
          .ok (some (match split.2 with
            | some sfx => split.1 ++ msgContent ++ sfx
            | none => split.1 ++ msgContent))
  | none => .ok none

theorem rustFind_some_prefixAt {m : List Char} :
    ∀ {s : List Char} {i : Nat}, rustFind m s = some i →
      m.isPrefixOf (s.drop i) = true := by
  intro s
  induction s with
  | nil =>
      intro i h
      simp only [rustFind] at h
      by_cases hm : m.isEmpty
      · rw [if_pos hm] at h
        cases h
        cases m with
        | nil => rfl
        | cons a as => simp [List.isEmpty] at hm
      · rw [if_neg hm] at h
        cases h
  | cons c rest ih =>
      intro i h
      simp only [rustFind] at h
      by_cases hp : m.isPrefixOf (c :: rest)
      · rw [if_pos hp] at h
        cases h
        exact hp
      · rw [if_neg hp] at h
        rcases Option.map_eq_some'.mp h with ⟨j, hj, rfl⟩
        simpa using ih hj

theorem rustFind_le_of_prefixAt {m : List Char} :
    ∀ {s : List Char} {i : Nat}, m.isPrefixOf (s.drop i) = true →
      ∃ j, rustFind m s = some j ∧ j ≤ i := by
  intro s
  induction s with
  | nil =>
      intro i h
      rw [List.drop_nil] at h
      have hm : m.isEmpty := by
        cases m with
        | nil => rfl
        | cons a as => simp [List.isPrefixOf] at h
      exact ⟨0, by simp [rustFind, hm], Nat.zero_le i⟩
  | cons c rest ih =>
      intro i h
      by_cases hp : m.isPrefixOf (c :: rest)
      · exact ⟨0, by simp [rustFind, hp], Nat.zero_le i⟩
      · cases i with
        | zero =>
            rw [List.drop_zero] at h
            exact absurd h hp
        | succ k =>
            rw [List.drop_succ_cons] at h
            rcases ih h with ⟨j, hj, hle⟩
            refine ⟨j + 1, ?_, Nat.succ_le_succ hle⟩
            simp [rustFind, hp, hj]

theorem rustFind_some_le_length {m : List Char} :
    ∀ {s : List Char} {i : Nat}, rustFind m s = some i → i ≤ s.length := by
  intro s
  induction s with
  | nil =>
      intro i h
      simp only [rustFind] at h
      by_cases hm : m.isEmpty
      · rw [if_pos hm] at h; cases h; exact Nat.le_refl 0
      · rw [if_neg hm] at h; cases h
  | cons c rest ih =>
      intro i h
      simp only [rustFind] at h
      by_cases hp : m.isPrefixOf (c :: rest)
      · rw [if_pos hp] at h; cases h; exact Nat.zero_le _
      · rw [if_neg hp] at h
        rcases Option.map_eq_some'.mp h with ⟨j, hj, rfl⟩
        simpa [List.length_cons] using Nat.succ_le_succ (ih hj)

theorem two_le_length_of_mem_ne {α : Type} {l : List α} {a b : α}
    (ha : a ∈ l) (hb : b ∈ l) (hne : a ≠ b) : 2 ≤ l.length := by
  rcases List.append_of_mem ha with ⟨l₁, l₂, rfl⟩
  rcases List.mem_append.mp hb with h | h
  · rcases List.append_of_mem h with ⟨t₁, t₂, rfl⟩
    simp only [List.length_append, List.length_cons]
    omega
  · rcases List.mem_cons.mp h with rfl | h
    · exact absurd rfl hne
    · rcases List.append_of_mem h with ⟨t₁, t₂, rfl⟩
      simp only [List.length_append, List.length_cons]
      omega

theorem two_le_countP_of_two_witnesses {l : List Nat} {p : Nat → Bool}
    {i j : Nat} (hi : i ∈ l) (hj : j ∈ l) (hne : i ≠ j)
    (hpi : p i = true) (hpj : p j = true) : 2 ≤ l.countP p := by
  rw [List.countP_eq_length_filter]
  exact two_le_length_of_mem_ne (List.mem_filter.mpr ⟨hi, hpi⟩)
    (List.mem_filter.mpr ⟨hj, hpj⟩) hne

/-- When the marker occurs nowhere in the text, `rustFind` fails. -/
theorem rustFind_eq_none_of_occCount_zero {m s : List Char}
    (h : occCount m s = 0) : rustFind m s = none := by
  cases hf : rustFind m s with
  | none => rfl
  | some i =>
      exfalso
      have hp := rustFind_some_prefixAt hf
      have hle := rustFind_some_le_length hf
      have hpos : 0 < occCount m s := by
        unfold occCount
        rw [List.countP_pos_iff]
        exact ⟨i, List.mem_range.mpr (Nat.lt_succ_of_le hle), hp⟩
      omega

/-- When the marker occurs exactly once, at the boundary between `a` and
`b`, `rustFind` returns precisely `a.length`. -/
theorem rustFind_unique_occurrence {a b : List Char}
    (h : occCount fim (a ++ fim ++ b) = 1) :
    rustFind fim (a ++ fim ++ b) = some a.length := by
  have hocc : fim.isPrefixOf ((a ++ fim ++ b).drop a.length) = true := by
    rw [List.append_assoc, List.drop_left]
    exact List.isPrefixOf_iff_prefix.mpr (List.prefix_append fim b)
  rcases rustFind_le_of_prefixAt hocc with ⟨j, hj, hle⟩
  have hpj := rustFind_some_prefixAt hj
  rcases Nat.lt_or_ge j a.length with hlt | hge
  · exfalso
    have hlen : a.length ≤ (a ++ fim ++ b).length := by
      simp only [List.length_append]
      omega
    have h2 : 2 ≤ occCount fim (a ++ fim ++ b) := by
      unfold occCount
      exact two_le_countP_of_two_witnesses
        (List.mem_range.mpr (Nat.lt_succ_of_le (Nat.le_trans (Nat.le_of_lt hlt) hlen)))
        (List.mem_range.mpr (Nat.lt_succ_of_le hlen))
        (Nat.ne_of_lt hlt) hpj hocc
    omega
  · have : j = a.length := Nat.le_antisymm hle hge
    rw [this] at hj
    exact hj

/-- Document identity (`Url` from the LSP types, compared by equality). -/
def Url : Type := String

instance : BEq Url := inferInstanceAs (BEq String)
instance : DecidableEq Url := inferInstanceAs (DecidableEq String)
instance : LawfulBEq Url := inferInstanceAs (LawfulBEq String)
instance : Repr Url := inferInstanceAs (Repr String)

/-- LSP `Position` (only the line number is used by the backend). -/
structure Position where
  line : Nat
  character : Nat
deriving DecidableEq, Repr

/-- LSP `Range`. -/
structure Range where
  start : Position
  «end» : Position
deriving DecidableEq, Repr

/-- Strip a single trailing carriage return, as Rust `str::lines` does for
lines terminated by a carriage-return/line-feed pair. -/
def stripTrailingCr (l : List Char) : List Char :=
  if l.getLast? = some '\r' then l.dropLast else l

/-- A model of Rust `str::lines`: split at line feeds, strip the carriage
return of each terminated line, and drop the optional final empty segment
produced by a trailing line feed (so the empty text has no lines). -/
def rustLines (s : List Char) : List (List Char) :=
  let parts := s.splitOn '\n'
  let body := (parts.dropLast).map stripTrailingCr
  match parts.getLast? with
  | some [] => body
  | some last => body ++ [last]
  | none => body

/-- A model of Rust slice indexing `l.get(a..b)`: `some` of the sub-slice
when `a ≤ b ≤ l.length`, `none` otherwise (never a panic). -/
def sliceGet {α : Type} (l : List α) (a b : Nat) : Option (List α) :=
  if a ≤ b ∧ b ≤ l.length then some ((l.drop a).take (b - a)) else none

/-- `State` from `src/lsp/backend.rs` (lines 102-105): the document map,
modelled as an association list from uri to full text. -/
structure State where
  sources : List (Url × List Char)
deriving Repr

/-- `State::insert_source` (backend.rs lines 114-119): first text wins. -/
def State.insert_source (s : State) (uri : Url) (text : List Char) : State :=
  if (s.sources.lookup uri).isSome then s
  else { sources := (uri, text) :: s.sources }

/-- `State::update_source` (backend.rs lines 121-125): unconditional
overwrite when text is present, no-op otherwise. -/
def State.update_source (s : State) (uri : Url) (text : Option (List Char)) : State :=
  match text with
  | some t => { sources := (uri, t) :: (s.sources.filter (fun e => ¬ (e.1 == uri))) }
  | none => s

/-- `State::get_source_range` (backend.rs lines 152-162): look the uri up,
split the text into lines, slice the half-open line interval of the range,
and rejoin with line feeds. -/
def State.get_source_range (s : State) (document_uri : Url) (range : Range) :
    Option (List Char) :=
  (s.sources.lookup document_uri).bind fun src =>
    let lines := rustLines src
    let start := range.start.line
    let stop := range.«end».line
    (sliceGet lines start stop).map (fun target_lines =>
      List.intercalate ['\n'] target_lines)

/-- `AiCodeAction` from `src/lsp/backend.rs` (lines 27-36). -/
inductive AiCodeAction where
  | Instruct
  | Document
  | Fix
  | Optimize
  | Suggest
  | FillInMiddle
  | Test
deriving DecidableEq, Repr

/-- `AiCodeAction::label` (backend.rs lines 39-49). -/
def AiCodeAction.label : AiCodeAction → String
  | .Instruct => "Acai - Instruct"
  | .Document => "Acai - Document"
  | .Fix => "Acai - Fix"
  | .Optimize => "Acai - Optimize"
  | .Suggest => "Acai - Suggest"
  | .FillInMiddle => "Acai - Fill in middle"
  | .Test => "Acai - Test"

/-- `AiCodeAction::identifier` (backend.rs lines 52-62). -/
def AiCodeAction.identifier : AiCodeAction → String
  | .Instruct => "ai.instruct"
  | .Document => "ai.document"
  | .Fix => "ai.fix"
  | .Optimize => "ai.optimize"
  | .Suggest => "ai.suggest"
  | .FillInMiddle => "ai.fillInMiddle"
  | .Test => "ai.test"

/-- `AiCodeAction::all` (backend.rs lines 65-75). -/
def AiCodeAction.all : List AiCodeAction :=
  [.Instruct, .Document, .Fix, .Optimize, .Suggest, .FillInMiddle, .Test]

/-- `impl FromStr for AiCodeAction` (backend.rs lines 78-93); `none`
models the error case. -/
def AiCodeAction.fromStr (name : String) : Option AiCodeAction :=
  if name == "ai.instruct" then some .Instruct
  else if name == "ai.document" then some .Document
  else if name == "ai.fix" then some .Fix
  else if name == "ai.optimize" then some .Optimize
  else if name == "ai.suggest" then some .Suggest
  else if name == "ai.fillInMiddle" then some .FillInMiddle
  else if name == "ai.test" then some .Test
  else none

/-- `CodeActionData` (backend.rs lines 95-100). -/
structure CodeActionData where
  id : String
  document_uri : Url
  range : Range
deriving DecidableEq, Repr

/-- LSP `TextEdit` (only the fields the backend populates). -/
structure TextEdit where
  range : Range
  new_text : List Char
deriving DecidableEq, Repr

/-- LSP `WorkspaceEdit`: the `changes` map, modelled as an association
list from uri to its list of text edits. -/
structure WorkspaceEdit where
  changes : Option (List (Url × List TextEdit))
deriving DecidableEq, Repr

/-- LSP `CodeAction` (the fields the backend reads or writes).  The `data`
field models the serde round-trip of the resolution payload: `none` = no
data attached; `some (.error e)` = attached data that fails to decode as
`CodeActionData`; `some (.ok cad)` = successfully decoded data. -/
structure CodeAction where
  title : String
  kind : Option String
  is_preferred : Option Bool
  edit : Option WorkspaceEdit
  data : Option (Except String CodeActionData)
deriving Repr

/-- `CodeActionParams` (the fields `on_code_action` reads; the
`context_diagnostics` field stands for the diagnostic context, which the
handler ignores). -/
structure CodeActionParams where
  text_document : Url
  range : Range
  context_diagnostics : List String
deriving Repr

/-- `Backend::on_code_action` (backend.rs lines 179-213): one quick-fix
descriptor per catalog entry, each carrying `CodeActionData` with the
action identifier, the document uri and the range. -/
def Backend.on_code_action (params : CodeActionParams) : List CodeAction :=
  AiCodeAction.all.map fun code_action =>
    { title := code_action.label
      kind := some "quickfix"
      is_preferred := some true
      edit := none
      data := some (.ok
        { id := code_action.identifier
          document_uri := params.text_document
          range := params.range }) }

/-- Oracle for the network activity of the operations dispatched by
`execute_operation`: `chat` gives each chat-based operation's
`send` outcome (the content of its optional reply message), and
`fimNet` gives the completion client's outcome inside `Complete::send`. -/
structure OpOracle where
  chat : AiCodeAction → Except String (Option (List Char))
  fimNet : Except String (Option (List Char))

/-- `execute_operation` (backend.rs lines 298-389).  The outer `Option` is
`none` exactly when the source's `unwrap` of the action-id decode panics;
otherwise the inner `Option` is the produced reply: `Test` produces
nothing, `FillInMiddle` goes through `Complete::send`, every other action
dispatches its chat operation and keeps the reply only on a successful
`Ok(Some(..))` outcome. -/
def execute_operation (op_title : String) (context : Option (List Char))
    (oracle : OpOracle) : Option (Option (List Char)) :=
  match AiCodeAction.fromStr op_title with
  | none => none
  | some code_action =>
      if code_action = AiCodeAction.Test then some none
      else if code_action = AiCodeAction.FillInMiddle then
        some (match Complete.send context oracle.fimNet with
          | .ok (some response_msg) => some response_msg
          | _ => none)
      else
        some (match oracle.chat code_action with
          | .ok (some content) => some content
          | _ => none)

/-- `Backend::on_code_action_resolve` (backend.rs lines 215-296): decode
the round-tripped data (decode failures are logged and the params returned
unchanged), fetch the range's text as context, run the operation, and on a
produced reply attach a workspace edit with exactly one replacement edit
over the original range in the original document.  The outer `Option` is
`none` exactly when `execute_operation` panics on an undecodable id. -/
def Backend.on_code_action_resolve (st : State) (params : CodeAction)
    (oracle : OpOracle) : Option CodeAction :=
  let args := match params.data with
    | some (.ok cad) =>
        let context := st.get_source_range cad.document_uri cad.range
        some (cad.document_uri, cad.range, context, cad.id)
    | some (.error _) => none
    | none => none
  match args with
  | none => some params
  | some (document_uri, range, context, id) =>
      match execute_operation id context oracle with
      | none => none
      | some none => some params
      | some (some str_edit) =>
          some { params with
            edit := some (WorkspaceEdit.mk
              (some [(document_uri, [TextEdit.mk range str_edit])])) }

/-- Claim C1 (refuted by the code, code_bug evidence): for a Mistral
client, `send_message` builds the empty JSON object as the request body
(chat_completion.rs line 173) — it contains neither `model` nor `messages`
nor any other field — whereas the same state under the OpenAI arm produces
the documented flat object with `model`, `messages`, `stop`,
`presence_penalty`, `frequency_penalty`, `logit_bias` and `user`. -/
theorem mistral_request_body_is_empty :
    ChatCompletionClient.request_body
      (ChatCompletionClient.new Provider.Mistral Model.Codestral ("You are helpful.") ("tok"))
      (Message.mk Role.User ("hi")) = Json.obj []
  ∧ Json.hasField (ChatCompletionClient.request_body
      (ChatCompletionClient.new Provider.Mistral Model.Codestral ("You are helpful.") ("tok"))
      (Message.mk Role.User ("hi"))) ("model") = false
  ∧ Json.hasField (ChatCompletionClient.request_body
      (ChatCompletionClient.new Provider.Mistral Model.Codestral ("You are helpful.") ("tok"))
      (Message.mk Role.User ("hi"))) ("messages") = false
  ∧ Json.hasField (ChatCompletionClient.request_body
      (ChatCompletionClient.new Provider.OpenAI Model.GPT4o ("You are helpful.") ("tok"))
      (Message.mk Role.User ("hi"))) ("model") = true
  ∧ Json.hasField (ChatCompletionClient.request_body
      (ChatCompletionClient.new Provider.OpenAI Model.GPT4o ("You are helpful.") ("tok"))
      (Message.mk Role.User ("hi"))) ("messages") = true
  ∧ Json.hasField (ChatCompletionClient.request_body
      (ChatCompletionClient.new Provider.OpenAI Model.GPT4o ("You are helpful.") ("tok"))
      (Message.mk Role.User ("hi"))) ("logit_bias") = true :=
  ⟨rfl, rfl, rfl, rfl, rfl, rfl⟩

/-- Claim C7: offering code actions returns exactly seven descriptors, one
per catalog entry in the catalog's fixed order, each carrying the action
identifier, the document uri and the range, independently of the
diagnostic context. -/
theorem on_code_action_offer_spec (uri : Url) (r : Range)
    (d : List String) (d' : List String) :
    Backend.on_code_action (CodeActionParams.mk uri r d) =
      Backend.on_code_action (CodeActionParams.mk uri r d')
  ∧ (Backend.on_code_action (CodeActionParams.mk uri r d)).length = 7
  ∧ (Backend.on_code_action (CodeActionParams.mk uri r d)).map (fun a => a.data) =
      AiCodeAction.all.map (fun ca =>
        some (Except.ok (CodeActionData.mk ca.identifier uri r)))
  ∧ (Backend.on_code_action (CodeActionParams.mk uri r d)).map (fun a => a.title) =
      AiCodeAction.all.map AiCodeAction.label :=
  ⟨rfl, rfl, rfl, rfl⟩

/-- The first character of every model display identifier differs from the
first character of the parse-failure error prefix, so a protocol error
message is never equal to a parse-failure error message. -/
theorem protocol_error_ne_parse_error (m : Model) (p e : String) :
    Model.display m ++ "\n\n" ++ p ≠ "Failed to parse response JSON: " ++ e := by
  intro h
  have hd : (Model.display m ++ "\n\n" ++ p).data.head? =
      ("Failed to parse response JSON: " ++ e).data.head? :=
    congrArg (fun s => s.data.head?) h
  cases m
  all_goals
    first
    | exact absurd (Option.some.inj (show some 'G' = some 'F' from hd)) (by decide)
    | exact absurd (Option.some.inj (show some 'C' = some 'F' from hd)) (by decide)

/-- Claim C9: on a non-2xx HTTP status, `send_message` returns an error
embedding the model's display identifier and the pretty-printed response
body when the body parses as generic JSON, a distinct parse-failure error
when it does not, and never a success value in either case. -/
theorem send_message_failure_spec (c : ChatCompletionClient) (msg : Message)
    (v : Json) (e : String) :
    ((c.send_message msg (NetOutcome.failure (Except.ok v))).1 =
        Except.error (c.model.display ++ "\n\n" ++ Json.to_string_pretty v))
  ∧ (∃ s t, c.model.display ++ "\n\n" ++ Json.to_string_pretty v =
        s ++ c.model.display ++ t)
  ∧ (∃ s t, c.model.display ++ "\n\n" ++ Json.to_string_pretty v =
        s ++ Json.to_string_pretty v ++ t)
  ∧ ((c.send_message msg (NetOutcome.failure (Except.error e))).1 =
        Except.error ("Failed to parse response JSON: " ++ e))
  ∧ (c.model.display ++ "\n\n" ++ Json.to_string_pretty v ≠
        "Failed to parse response JSON: " ++ e)
  ∧ (∀ r, (c.send_message msg (NetOutcome.failure (Except.ok v))).1 ≠ Except.ok r)
  ∧ (∀ r, (c.send_message msg (NetOutcome.failure (Except.error e))).1 ≠ Except.ok r) := by
  refine ⟨rfl, ⟨"", "\n\n" ++ Json.to_string_pretty v, ?_⟩,
    ⟨c.model.display ++ "\n\n", "", ?_⟩, rfl,
    protocol_error_ne_parse_error c.model (Json.to_string_pretty v) e,
    fun r h => Except.noConfusion h, fun r h => Except.noConfusion h⟩
  · simp [String.append_assoc]
  · simp

/-- Claim C10: whenever `send_message` returns an error — transport,
decode, or protocol — the stored history has nonetheless grown by the
caller's input message: the push happens before the HTTP exchange and no
error path removes it. -/
theorem send_message_error_keeps_input (c : ChatCompletionClient) (msg : Message)
    (net : NetOutcome) (e : String)
    (h : (c.send_message msg net).1 = Except.error e) :
    (c.send_message msg net).2.messages = c.messages ++ [msg] := by
  cases net with
  | transportErr e' => rfl
  | success d =>
      cases d with
      | error e' => rfl
      | ok o =>
          cases o with
          | none => exact Except.noConfusion h
          | some m => exact Except.noConfusion h
  | failure b => cases b <;> rfl

/-- Witness for C10 at a transport failure on a fresh OpenAI client. -/
theorem send_message_error_keeps_input_w :
    ((ChatCompletionClient.new Provider.OpenAI Model.GPT4o ("sys") ("tok")).send_message
        (Message.mk Role.User ("hi")) (NetOutcome.transportErr ("connection refused"))).2.messages =
      (ChatCompletionClient.new Provider.OpenAI Model.GPT4o ("sys") ("tok")).messages ++
        [Message.mk Role.User ("hi")] :=
  send_message_error_keeps_input _ _ _ ("connection refused") rfl

/-- Claim C3: in every reachable client state, the stored history contains
no System-role message when the provider is Anthropic or Google, and has
the system prompt as its first message when the provider is OpenAI or
Mistral. -/
theorem history_system_placement (c : ChatCompletionClient) (h : Reachable c) :
    ((c.provider = Provider.Anthropic ∨ c.provider = Provider.Google) →
        ∀ m ∈ c.messages, m.role ≠ Role.System)
  ∧ ((c.provider = Provider.OpenAI ∨ c.provider = Provider.Mistral) →
        c.messages.head? = some (Message.mk Role.System c.system)) := by
  have hinv := reachable_histInv c h
  unfold HistInv at hinv
  cases hp : c.provider <;> rw [hp] at hinv
  case Anthropic =>
    exact ⟨fun _ => hinv,
      fun hor => by rcases hor with h' | h' <;> exact Provider.noConfusion h'⟩
  case Google =>
    exact ⟨fun _ => hinv,
      fun hor => by rcases hor with h' | h' <;> exact Provider.noConfusion h'⟩
  case OpenAI =>
    refine ⟨fun hor => by rcases hor with h' | h' <;> exact Provider.noConfusion h', fun _ => ?_⟩
    rcases hinv with ⟨rest, hr, _⟩
    rw [hr]
    rfl
  case Mistral =>
    refine ⟨fun hor => by rcases hor with h' | h' <;> exact Provider.noConfusion h', fun _ => ?_⟩
    rcases hinv with ⟨rest, hr, _⟩
    rw [hr]
    rfl

/-- Witness for C3: a fresh OpenAI client stores the system prompt as its
first message. -/
theorem history_system_placement_w :
    (ChatCompletionClient.new Provider.OpenAI Model.GPT4o ("sys") ("tok")).messages.head? =
      some (Message.mk Role.System ("sys")) :=
  (history_system_placement _
    (Reachable.init Provider.OpenAI Model.GPT4o ("sys") ("tok"))).2 (Or.inl rfl)

/-- Claim C2: in every reachable client state, `get_message_history`
returns the synthesized system message followed by the stored history for
Anthropic/Google and the stored history unchanged for OpenAI/Mistral; the
result always has exactly one System message, at its head.  The function
reads the state without modifying it (it is a pure function of the client
in this embedding, matching the shared borrow in the source), so it is
idempotent. -/
theorem get_message_history_spec (c : ChatCompletionClient) (h : Reachable c) :
    (((c.provider = Provider.Anthropic ∨ c.provider = Provider.Google) →
        c.get_message_history = Message.mk Role.System c.system :: c.messages)
  ∧ ((c.provider = Provider.OpenAI ∨ c.provider = Provider.Mistral) →
        c.get_message_history = c.messages)
  ∧ c.get_message_history.head? = some (Message.mk Role.System c.system)
  ∧ c.get_message_history.countP (fun m => m.role == Role.System) = 1) := by
  have hinv := reachable_histInv c h
  unfold HistInv at hinv
  unfold ChatCompletionClient.get_message_history
  have hcount0 : ∀ msgs : List Message, noSystem msgs →
      msgs.countP (fun m => m.role == Role.System) = 0 := by
    intro msgs hns
    rw [List.countP_eq_zero]
    intro m hm
    simpa using hns m hm
  cases hp : c.provider <;> rw [hp] at hinv
  case Anthropic =>
    refine ⟨fun _ => rfl,
      fun hor => by rcases hor with h' | h' <;> exact Provider.noConfusion h',
      rfl, ?_⟩
    rw [List.countP_cons]
    simp [hcount0 c.messages hinv]
  case Google =>
    refine ⟨fun _ => rfl,
      fun hor => by rcases hor with h' | h' <;> exact Provider.noConfusion h',
      rfl, ?_⟩
    rw [List.countP_cons]
    simp [hcount0 c.messages hinv]
  case OpenAI =>
    rcases hinv with ⟨rest, hr, hns⟩
    refine ⟨fun hor => by rcases hor with h' | h' <;> exact Provider.noConfusion h',
      fun _ => rfl, by rw [hr]; rfl, ?_⟩
    rw [hr, List.countP_cons]
    simp [hcount0 rest hns]
  case Mistral =>
    rcases hinv with ⟨rest, hr, hns⟩
    refine ⟨fun hor => by rcases hor with h' | h' <;> exact Provider.noConfusion h',
      fun _ => rfl, by rw [hr]; rfl, ?_⟩
    rw [hr, List.countP_cons]
    simp [hcount0 rest hns]

/-- Witness for C2: after a successful exchange on a fresh Anthropic
client, the externalized history still has exactly one System message. -/
theorem get_message_history_spec_w :
    ((ChatCompletionClient.new Provider.Anthropic Model.Claude3Haiku ("sys") ("tok")).send_message
        (Message.mk Role.User ("hi"))
        (NetOutcome.success (Except.ok (some (Message.mk Role.Assistant ("hello")))))).2.get_message_history.countP
      (fun m => m.role == Role.System) = 1 :=
  (get_message_history_spec _
    (Reachable.step _ _ _
      (Reachable.init Provider.Anthropic Model.Claude3Haiku ("sys") ("tok"))
      (by decide) (by simp [NetOutcome.repliesAssistant]))).2.2.2

/-- Claim C4: with no marker occurrence the whole context is the prefix
and there is no suffix; with exactly one occurrence the prefix is the text
before it and the suffix the text strictly after its five characters; a
reply reassembles as prefix-reply-suffix (suffix omitted when absent);
the worked example holds; and a missing context or a missing reply yields
no result. -/
theorem complete_fim_spec :
    (∀ ctx : List Char, occCount fim ctx = 0 → fimSplit ctx = (ctx, none))
  ∧ (∀ a b : List Char, occCount fim (a ++ fim ++ b) = 1 →
        fimSplit (a ++ fim ++ b) = (a, some b))
  ∧ (∀ ctx msg : List Char,
        Complete.send (some ctx) (Except.ok (some msg)) =
          Except.ok (some (match (fimSplit ctx).2 with
            | some sfx => (fimSplit ctx).1 ++ msg ++ sfx
            | none => (fimSplit ctx).1 ++ msg)))
  ∧ Complete.send (some ("foo(<fim>)bar".toList)) (Except.ok (some ("X".toList))) =
      Except.ok (some ("foo(X)bar".toList))
  ∧ (∀ net, Complete.send none net = Except.ok none)
  ∧ (∀ ctx, Complete.send (some ctx) (Except.ok none) = Except.ok none) := by
  refine ⟨?_, ?_, ?_, ?_, ?_, ?_⟩
  · intro ctx h
    unfold fimSplit
    rw [rustFind_eq_none_of_occCount_zero h]
  · intro a b h
    have hf := rustFind_unique_occurrence h
    have ht : (a ++ (fim ++ b)).take a.length = a := List.take_left a (fim ++ b)
    have hd : (a ++ (fim ++ b)).drop (a.length + 5) = b := by
      rw [← List.drop_drop, List.drop_left]
      rw [show (5 : Nat) = fim.length from rfl, List.drop_left]
    unfold fimSplit
    rw [hf, List.append_assoc]
    show (List.take a.length (a ++ (fim ++ b)),
        some (List.drop (a.length + 5) (a ++ (fim ++ b)))) = (a, some b)
    rw [ht, hd]
  · intro ctx msg
    rfl
  · rfl
  · intro net
    rfl
  · intro ctx
    rfl

/-- Witness for C4: the worked example has a unique marker occurrence and
splits into the documented prefix and suffix. -/
theorem complete_fim_spec_w :
    occCount fim ("foo(".toList ++ fim ++ ")bar".toList) = 1
  ∧ fimSplit ("foo(".toList ++ fim ++ ")bar".toList) =
      ("foo(".toList, some (")bar".toList)) :=
  ⟨by decide, complete_fim_spec.2.1 ("foo(".toList) (")bar".toList) (by decide)⟩

/-- Claim C5: `get_source_range` is total — it returns `none` for an
untracked uri, and `none` (rather than panicking) whenever the requested
line interval exceeds the tracked text's line count or its start exceeds
its end. -/
theorem get_source_range_safe (s : State) (uri : Url) (r : Range) :
    (s.sources.lookup uri = none → s.get_source_range uri r = none)
  ∧ (∀ src, s.sources.lookup uri = some src →
      ((rustLines src).length < r.«end».line ∨ r.«end».line < r.start.line) →
      s.get_source_range uri r = none) := by
  constructor
  · intro h
    unfold State.get_source_range
    rw [h]
    rfl
  · intro src h hoob
    unfold State.get_source_range
    rw [h]
    show (sliceGet (rustLines src) r.start.line r.«end».line).map _ = none
    unfold sliceGet
    rw [if_neg (by rintro ⟨h1, h2⟩; omega)]
    rfl

/-- Witness for C5: an untracked uri yields `none`. -/
theorem get_source_range_safe_w :
    (State.mk []).get_source_range ("file:///a.rs")
      (Range.mk (Position.mk 0 0) (Position.mk 5 0)) = none :=
  (get_source_range_safe (State.mk []) ("file:///a.rs")
    (Range.mk (Position.mk 0 0) (Position.mk 5 0))).1 rfl

/-- Claim C6: on a tracked document, a line interval within bounds yields
exactly the lines of the half-open interval, joined by newlines. -/
theorem get_source_range_in_bounds (s : State) (uri : Url) (r : Range)
    (src : List Char)
    (hsrc : s.sources.lookup uri = some src)
    (h1 : r.start.line ≤ r.«end».line)
    (h2 : r.«end».line ≤ (rustLines src).length) :
    s.get_source_range uri r =
      some (List.intercalate ['\n']
        (((rustLines src).drop r.start.line).take (r.«end».line - r.start.line))) := by
  unfold State.get_source_range
  rw [hsrc]
  show (sliceGet (rustLines src) r.start.line r.«end».line).map _ = _
  unfold sliceGet
  rw [if_pos ⟨h1, h2⟩]
  rfl

/-- Witness for C6: on a ten-line tracked document, range `[2,5)` yields
lines 3 through 5 joined by newlines. -/
theorem get_source_range_in_bounds_w :
    (State.mk [(("file:///d.rs" : Url),
        ("l1\nl2\nl3\nl4\nl5\nl6\nl7\nl8\nl9\nl10").toList)]).get_source_range
      ("file:///d.rs") (Range.mk (Position.mk 2 0) (Position.mk 5 0)) =
      some (("l3\nl4\nl5").toList) := by
  have h := get_source_range_in_bounds
    (State.mk [(("file:///d.rs" : Url),
        ("l1\nl2\nl3\nl4\nl5\nl6\nl7\nl8\nl9\nl10").toList)])
    ("file:///d.rs") (Range.mk (Position.mk 2 0) (Position.mk 5 0))
    (("l1\nl2\nl3\nl4\nl5\nl6\nl7\nl8\nl9\nl10").toList)
    (by decide) (by decide) (by decide)
  rw [h]
  decide

/-- Resolution with successfully decoded data reduces to a case split on
the operation's outcome. -/
theorem resolve_eq_of_data (st : State) (params : CodeAction)
    (cad : CodeActionData) (oracle : OpOracle)
    (hdata : params.data = some (Except.ok cad)) :
    Backend.on_code_action_resolve st params oracle =
      match execute_operation cad.id
          (st.get_source_range cad.document_uri cad.range) oracle with
      | none => none
      | some none => some params
      | some (some str_edit) =>
          some { params with edit := some (WorkspaceEdit.mk
            (some [(cad.document_uri, [TextEdit.mk cad.range str_edit])])) } := by
  unfold Backend.on_code_action_resolve
  rw [hdata]

/-- On a successfully decoded action id, `execute_operation` reduces to
the per-action dispatch. -/
theorem execute_operation_eq_of_fromStr (op_title : String)
    (context : Option (List Char)) (oracle : OpOracle) (a : AiCodeAction)
    (ha : AiCodeAction.fromStr op_title = some a) :
    execute_operation op_title context oracle =
      (if a = AiCodeAction.Test then some none
       else if a = AiCodeAction.FillInMiddle then
         some (match Complete.send context oracle.fimNet with
           | .ok (some response_msg) => some response_msg
           | _ => none)
       else
         some (match oracle.chat a with
           | .ok (some content) => some content
           | _ => none)) := by
  unfold execute_operation
  rw [ha]

/-- Claim C8: resolving a well-formed descriptor never fails the resolve
call: the `Test` action yields the params unchanged (no edit); any valid
action id produces a result, the result is unchanged when the operation
produces no reply (including when its network outcome is an error), and a
produced reply becomes exactly one replacement text edit over the original
range in a single-document workspace edit. -/
theorem on_code_action_resolve_spec (st : State) (params : CodeAction)
    (cad : CodeActionData) (oracle : OpOracle)
    (hdata : params.data = some (Except.ok cad)) :
    (cad.id = "ai.test" →
        Backend.on_code_action_resolve st params oracle = some params)
  ∧ (∀ a, AiCodeAction.fromStr cad.id = some a →
        (Backend.on_code_action_resolve st params oracle ≠ none)
      ∧ (execute_operation cad.id
            (st.get_source_range cad.document_uri cad.range) oracle = some none →
          Backend.on_code_action_resolve st params oracle = some params)
      ∧ (∀ reply, execute_operation cad.id
            (st.get_source_range cad.document_uri cad.range) oracle = some (some reply) →
          Backend.on_code_action_resolve st params oracle =
            some { params with edit := some (WorkspaceEdit.mk
              (some [(cad.document_uri, [TextEdit.mk cad.range reply])])) }))
  ∧ (∀ a e, AiCodeAction.fromStr cad.id = some a → a ≠ AiCodeAction.Test →
        a ≠ AiCodeAction.FillInMiddle → oracle.chat a = Except.error e →
        execute_operation cad.id
          (st.get_source_range cad.document_uri cad.range) oracle = some none) := by
  refine ⟨?_, ?_, ?_⟩
  · intro hid
    rw [resolve_eq_of_data st params cad oracle hdata, hid]
    rfl
  · intro a ha
    have hex : ∃ inner, execute_operation cad.id
        (st.get_source_range cad.document_uri cad.range) oracle = some inner := by
      rw [execute_operation_eq_of_fromStr cad.id
        (st.get_source_range cad.document_uri cad.range) oracle a ha]
      by_cases h1 : a = AiCodeAction.Test
      · rw [if_pos h1]
        exact ⟨none, rfl⟩
      · rw [if_neg h1]
        by_cases h2 : a = AiCodeAction.FillInMiddle
        · rw [if_pos h2]
          exact ⟨_, rfl⟩
        · rw [if_neg h2]
          exact ⟨_, rfl⟩
    refine ⟨?_, ?_, ?_⟩
    · rcases hex with ⟨inner, hin⟩
      rw [resolve_eq_of_data st params cad oracle hdata, hin]
      cases inner <;> simp
    · intro hnone
      rw [resolve_eq_of_data st params cad oracle hdata, hnone]
    · intro reply hreply
      rw [resolve_eq_of_data st params cad oracle hdata, hreply]
  · intro a e ha h1 h2 hchat
    rw [execute_operation_eq_of_fromStr cad.id
      (st.get_source_range cad.document_uri cad.range) oracle a ha,
      if_neg h1, if_neg h2, hchat]

/-- Witness for C8: resolving the offered `Test` descriptor returns it
unchanged, with no edit attached. -/
theorem on_code_action_resolve_spec_w :
    Backend.on_code_action_resolve (State.mk [])
      (CodeAction.mk ("Acai - Test") (some ("quickfix")) (some true) none
        (some (Except.ok (CodeActionData.mk ("ai.test") ("file:///a.rs")
          (Range.mk (Position.mk 0 0) (Position.mk 1 0))))))
      (OpOracle.mk (fun _ => Except.ok none) (Except.ok none)) =
      some (CodeAction.mk ("Acai - Test") (some ("quickfix")) (some true) none
        (some (Except.ok (CodeActionData.mk ("ai.test") ("file:///a.rs")
          (Range.mk (Position.mk 0 0) (Position.mk 1 0)))))) :=
  (on_code_action_resolve_spec (State.mk [])
    (CodeAction.mk ("Acai - Test") (some ("quickfix")) (some true) none
      (some (Except.ok (CodeActionData.mk ("ai.test") ("file:///a.rs")
        (Range.mk (Position.mk 0 0) (Position.mk 1 0))))))
    (CodeActionData.mk ("ai.test") ("file:///a.rs")
      (Range.mk (Position.mk 0 0) (Position.mk 1 0)))
    (OpOracle.mk (fun _ => Except.ok none) (Except.ok none)) rfl).1 rfl
